import Mathlib

/-!
# Verification of `lab_2_3_LinearRegression.py`

A shallow embedding of the linear-regression lab code: the `LinearRegressor`
class (`fit_simple`, `fit_multiple`, `predict`) and the `evaluate_regression`
function, together with proofs of the specified properties.

Python floats are modelled as rationals (`ℚ`); `np.sqrt` is modelled by
`Real.sqrt` on the rational radicand.  For the degenerate division-by-zero
paths (where IEEE arithmetic produces `inf`/`nan` rather than raising) we use
an extended scalar type `Fl` that tracks non-finite values explicitly.
Exceptions are modelled with `Except`; a method that mutates the object is
modelled as a function from the old state to the new state.
-/

namespace LinReg

/-- A 1-D or 2-D numpy array of floats (`np.ndarray` with `ndim` 1 or 2).
2-D arrays are stored as their list of rows (row-major, as numpy lays
them out). -/
inductive NDArray where
  | one : List ℚ → NDArray
  | two : List (List ℚ) → NDArray
deriving Repr, DecidableEq

/-- Models `np.ndim`. -/
def NDArray.ndim : NDArray → ℕ
  | .one _ => 1
  | .two _ => 2

/-- The elements of the array in row-major order (what `X.reshape(1, -1)`
lines up into its single row). -/
def NDArray.flatten : NDArray → List ℚ
  | .one l => l
  | .two m => m.flatten

/-- Models `X.reshape(1, -1)`: all elements in one row, row-major order. -/
def NDArray.reshapeRow (a : NDArray) : NDArray :=
  .two [a.flatten]

/-- Models `np.mean` of a 1-D float list: sum divided by length.  (On the empty
array numpy warns and yields `nan`; in `ℚ` the division by zero yields the
junk value `0`.  All statements below assume nonempty input where this
matters.) -/
def npMean (l : List ℚ) : ℚ := l.sum / l.length

/-- Models `np.var(l, ddof=0)`: population variance, mean squared deviation from
the mean (denominator `n`). -/
def npVar (l : List ℚ) : ℚ :=
  (l.map (fun a => (a - npMean l) ^ 2)).sum / l.length

/-- The `[1,0]` entry of `np.cov(x, y, ddof=0)`: the population covariance
of the two equal-length series, `Σ (xᵢ - x̄)(yᵢ - ȳ) / n`. -/
def npCov (x y : List ℚ) : ℚ :=
  (List.zipWith (fun a b => (a - npMean x) * (b - npMean y)) x y).sum / x.length

/-- The value held in `self.coefficients` once set: `fit_simple` stores a
numpy scalar, `fit_multiple` stores a 1-D array. -/
inductive Coeffs where
  | scalar : ℚ → Coeffs
  | vec : List ℚ → Coeffs
deriving Repr, DecidableEq

/-- The mutable state of a `LinearRegressor`: both fields start out as
`None` (here `none`) and are only ever assigned by the fit methods. -/
structure Regressor where
  coefficients : Option Coeffs
  intercept : Option ℚ
deriving Repr, DecidableEq

/-- Models `LinearRegressor.__init__`: both fields unset. -/
def Regressor.init : Regressor := ⟨none, none⟩

/-- Models `LinearRegressor.fit_simple(X, y)` (lines 21–41).  If `X` has more than
one dimension it is first reshaped to a single row; `np.cov`, `np.var` and
`np.mean` then act on that row's elements, i.e. on the row-major flattening
of `X`.  The slope `np.cov(X, y, ddof=0)[1,0] / np.var(X, ddof=0)` is stored
in `coefficients`, then the intercept `np.mean(y) - coefficients * np.mean(X)`
is stored.  The Python method returns `None`; here the updated state is the
return value.  (numpy raises no error on zero variance: the division's IEEE
behaviour on that path is modelled separately by `fit_simpleF` below.) -/
def fit_simple (r : Regressor) (X : NDArray) (y : List ℚ) : Regressor :=
  let X' := if X.ndim > 1 then X.reshapeRow else X
  let x := X'.flatten
  let slope := npCov x y / npVar x
  { r with
    coefficients := some (.scalar slope)
    intercept := some (npMean y - slope * npMean x) }

/-- The errors `predict` can surface: the explicit
`ValueError("Model is not yet fitted")`, or a shape/broadcast error
propagated from the underlying numpy operation. -/
inductive PredictError where
  | unfitted : PredictError
  | shapeMismatch : PredictError
deriving Repr, DecidableEq

/-- numpy 1-D broadcasting of a binary operation over two 1-D arrays:
equal lengths act elementwise; a length-1 operand is stretched; any other
length combination raises a broadcast error. -/
def broadcast1 (op : ℚ → ℚ → ℚ) : List ℚ → List ℚ → Option (List ℚ)
  | [a], l => some (l.map (fun b => op a b))
  | v, [b] => some (v.map (fun a => op a b))
  | v, l => if v.length = l.length then some (List.zipWith op v l) else none

/-- Dot product of two equal-length rows (`row · coefficients`). -/
def dotQ (a b : List ℚ) : ℚ := (List.zipWith (· * ·) a b).sum

/-- Models `LinearRegressor.predict(X)` (lines 64–86).  First the unfitted check:
`if self.coefficients is None or self.intercept is None: raise ValueError`.
Then, for 1-D `X`, `self.intercept + self.coefficients * X` (elementwise for
a scalar coefficient, numpy broadcasting for an array coefficient); for 2-D
`X`, `self.intercept + X.dot(self.coefficients)` (`dot` with a scalar
multiplies the whole matrix; with a vector it takes a dot product per row
and requires the row length to match). -/
def predict (r : Regressor) (X : NDArray) : Except PredictError NDArray :=
  match r.coefficients, r.intercept with
  | none, _ => .error .unfitted
  | _, none => .error .unfitted
  | some c, some b =>
    match X with
    | .one l =>
      match c with
      | .scalar s => .ok (.one (l.map (fun x => b + s * x)))
      | .vec v =>
        match broadcast1 (· * ·) v l with
        | some prods => .ok (.one (prods.map (fun p => b + p)))
        | none => .error .shapeMismatch
    | .two m =>
      match c with
      | .scalar s => .ok (.two (m.map (fun row => row.map (fun x => b + s * x))))
      | .vec v =>
        if m.all (fun row => row.length = v.length) then
          .ok (.one (m.map (fun row => b + dotQ row v)))
        else .error .shapeMismatch

/-- Models `rss = np.sum((y_true - y_pred)**2)` (line 101).  The elementwise
difference assumes the two arrays have equal length (numpy would raise a
broadcast error otherwise; every statement below carries that
precondition). -/
def rssQ (y_true y_pred : List ℚ) : ℚ :=
  ((List.zipWith (· - ·) y_true y_pred).map (fun d => d ^ 2)).sum

/-- Models `tss = np.sum((y_true - np.mean(y_true))**2)` (line 102). -/
def tssQ (y_true : List ℚ) : ℚ :=
  ((y_true.map (fun a => a - npMean y_true)).map (fun d => d ^ 2)).sum

/-- Models `mae = (1/len(y_true)) * np.sum(abs(y_true - y_pred))` (line 110). -/
def maeQ (y_true y_pred : List ℚ) : ℚ :=
  (1 / y_true.length) * ((List.zipWith (· - ·) y_true y_pred).map (fun d => |d|)).sum

/-- Models `evaluate_regression(y_true, y_pred)` (lines 89–112): returns the dict
`{"R2": 1 - rss/tss, "RMSE": sqrt(rss/n), "MAE": mae}`, modelled as an
association list in insertion order.  The square root forces the values
into `ℝ`; the other entries are rational values cast into `ℝ`.  (The
`R2` entry is the finite-path value: when `tss = 0` numpy produces a
non-finite float instead, which is modelled by `r2F` below.) -/
noncomputable def evaluate_regression (y_true y_pred : List ℚ) :
    List (String × ℝ) :=
  [("R2", ((1 - rssQ y_true y_pred / tssQ y_true : ℚ) : ℝ)),
   ("RMSE", Real.sqrt ((rssQ y_true y_pred / y_true.length : ℚ) : ℝ)),
   ("MAE", ((maeQ y_true y_pred : ℚ) : ℝ))]

/-- Models `np.c_[np.ones(X.shape[0]), X]` (line 59): the design matrix — `X`
augmented with a leading column of ones. -/
def addOnes {n p : ℕ} (X : Matrix (Fin n) (Fin p) ℚ) :
    Matrix (Fin n) (Fin (p + 1)) ℚ :=
  Matrix.of fun i => Matrix.vecCons 1 (X i)

/-- Models `np.linalg.inv` on an exact-arithmetic square matrix: the classical
adjugate formula `det⁻¹ • adj`.  (`invQ_eq_inv` below checks this against
Mathlib's nonsingular inverse.)  `np.linalg.inv` raises `LinAlgError` on a
singular matrix; `fit_multiple` tests `det = 0` for that condition. -/
def invQ {m : ℕ} (A : Matrix (Fin m) (Fin m) ℚ) : Matrix (Fin m) (Fin m) ℚ :=
  A.det⁻¹ • A.adjugate

/-- Models `LinearRegressor.fit_multiple(X, y)` (lines 44–62).  Augments `X` with
the ones column, computes `w = inv(Xᵗ X) @ Xᵗ @ y`, then assigns
`intercept = w[0]` and `coefficients = w[1:]`.  When `Xᵗ X` is singular,
`np.linalg.inv` raises before either field is assigned, so the prior state
`r` is returned unchanged. -/
def fit_multiple {n p : ℕ} (r : Regressor) (X : Matrix (Fin n) (Fin p) ℚ)
    (y : Fin n → ℚ) : Regressor :=
  let X' := addOnes X
  let A := X'.transpose * X'
  if A.det = 0 then r
  else
    let w := (invQ A * X'.transpose).mulVec y
    { r with
      intercept := some (w 0)
      coefficients := some (.vec (List.ofFn fun j : Fin p => w j.succ)) }

/-- An IEEE-754-style extended scalar: a finite value (exact rational), a
signed infinity, or `nan`.  Used to model the silent division-by-zero
paths, where numpy emits a warning and produces a non-finite float rather
than raising. -/
inductive Fl where
  | fin : ℚ → Fl
  | inf : Fl
  | ninf : Fl
  | nan : Fl
deriving Repr, DecidableEq

/-- Whether an extended scalar is a finite float. -/
def Fl.isFinite : Fl → Bool
  | .fin _ => true
  | _ => false

/-- IEEE division: a nonzero finite value divided by zero gives a signed
infinity, `0/0` gives `nan`. -/
def Fl.div : Fl → Fl → Fl
  | .nan, _ => .nan
  | _, .nan => .nan
  | .fin a, .fin b =>
    if b = 0 then (if a = 0 then .nan else if 0 < a then .inf else .ninf)
    else .fin (a / b)
  | .fin _, _ => .fin 0
  | .inf, .fin b => if b < 0 then .ninf else .inf
  | .ninf, .fin b => if b < 0 then .inf else .ninf
  | _, _ => .nan

/-- IEEE multiplication: `0 * ±inf = nan`, otherwise signs multiply. -/
def Fl.mul : Fl → Fl → Fl
  | .nan, _ => .nan
  | _, .nan => .nan
  | .fin a, .fin b => .fin (a * b)
  | .fin a, .inf => if a = 0 then .nan else if 0 < a then .inf else .ninf
  | .fin a, .ninf => if a = 0 then .nan else if 0 < a then .ninf else .inf
  | .inf, .fin b => if b = 0 then .nan else if 0 < b then .inf else .ninf
  | .ninf, .fin b => if b = 0 then .nan else if 0 < b then .ninf else .inf
  | .inf, .inf => .inf
  | .inf, .ninf => .ninf
  | .ninf, .inf => .ninf
  | .ninf, .ninf => .inf

/-- IEEE subtraction: `inf - inf = nan`, a finite value minus `±inf` is
`∓inf`. -/
def Fl.sub : Fl → Fl → Fl
  | .nan, _ => .nan
  | _, .nan => .nan
  | .fin a, .fin b => .fin (a - b)
  | .fin _, .inf => .ninf
  | .fin _, .ninf => .inf
  | .inf, .fin _ => .inf
  | .ninf, .fin _ => .ninf
  | .inf, .inf => .nan
  | .inf, .ninf => .inf
  | .ninf, .inf => .ninf
  | .ninf, .ninf => .nan

/-- IEEE-tracking model of the two assignments of `fit_simple`
(lines 40–41) on 1-D input.  For nonempty finite input the covariance,
variance and means are finite floats (exact rationals here); the final
division, multiplication and subtraction are the IEEE operations, so when
`np.var(X) = 0` the division silently produces a non-finite value that is
stored in the two fields.  Returns the stored
`(coefficients, intercept)` pair; both are always assigned (`some`), since
no exception is raised on this path. -/
def fit_simpleF (X y : List ℚ) : Option Fl × Option Fl :=
  let slope := Fl.div (.fin (npCov X y)) (.fin (npVar X))
  (some slope, some (Fl.sub (.fin (npMean y)) (Fl.mul slope (.fin (npMean X)))))

/-- IEEE-tracking model of `r_squared = 1 - (rss/tss)` (lines 101–104):
with a zero `tss` the division produces `inf` (or `nan` when `rss = 0`
too), and the subtraction keeps the result non-finite. -/
def r2F (y_true y_pred : List ℚ) : Fl :=
  Fl.sub (.fin 1) (Fl.div (.fin (rssQ y_true y_pred)) (.fin (tssQ y_true)))

/-! ## Bridging lemmas: list reductions as indexed sums -/

/-- A zipped-and-summed pair of equal-length lists is the indexed sum of
the combined entries. -/
theorem zipWith_sum_getD (f : ℚ → ℚ → ℚ) :
    ∀ (X y : List ℚ), X.length = y.length →
      (List.zipWith f X y).sum =
        ∑ i in Finset.range X.length, f (X.getD i 0) (y.getD i 0)
  | [], [], _ => by simp
  | [], _ :: _, h => by simp at h
  | _ :: _, [], h => by simp at h
  | a :: X, b :: y, h => by
    simp only [List.zipWith_cons_cons, List.sum_cons, List.length_cons]
    rw [Finset.sum_range_succ']
    simp only [List.getD_cons_succ, List.getD_cons_zero]
    rw [zipWith_sum_getD f X y (by simpa using h)]
    ring

/-- A mapped-and-summed list is the indexed sum of the images of its
entries. -/
theorem map_sum_getD (f : ℚ → ℚ) (l : List ℚ) :
    (l.map f).sum = ∑ i in Finset.range l.length, f (l.getD i 0) := by
  induction l with
  | nil => simp
  | cons a l ih =>
    simp only [List.map_cons, List.sum_cons, List.length_cons]
    rw [Finset.sum_range_succ']
    simp only [List.getD_cons_succ, List.getD_cons_zero]
    rw [ih]; ring

/-- A list's sum is the indexed sum of its entries. -/
theorem sum_getD (l : List ℚ) :
    l.sum = ∑ i in Finset.range l.length, l.getD i 0 := by
  simpa using map_sum_getD id l

/-- Rewriting `np.mean` as an indexed sum. -/
theorem npMean_eq_sum_getD (l : List ℚ) :
    npMean l = (∑ i in Finset.range l.length, l.getD i 0) / l.length := by
  rw [npMean, sum_getD]

/-- Rewriting `np.var(·, ddof=0)` as an indexed sum of squared deviations divided by
`n`. -/
theorem npVar_eq_sum_getD (l : List ℚ) :
    npVar l =
      (∑ i in Finset.range l.length, (l.getD i 0 - npMean l) ^ 2) / l.length := by
  rw [npVar, map_sum_getD]

/-- The covariance entry of `np.cov(·, ·, ddof=0)` as an indexed sum of
deviation products divided by `n`. -/
theorem npCov_eq_sum_getD (x y : List ℚ) (h : x.length = y.length) :
    npCov x y =
      (∑ i in Finset.range x.length,
        (x.getD i 0 - npMean x) * (y.getD i 0 - npMean y)) / x.length := by
  rw [npCov, zipWith_sum_getD _ _ _ h]

/-! ## Claim C1: `fit_simple` population-formula correctness -/

/-- Claim C1: for every 1-D predictor `X` and response `y` of equal length
`n` with nonzero (population) variance in `X`, `fit_simple` sets the
coefficient to `Cov(X,y)/Var(X)` with population denominators (dividing by
`n`, not `n-1`) and the intercept to `mean(y) - slope * mean(X)`.  The
statement writes the covariance, variance and means as explicit indexed
sums divided by `n`.  The Python method returns `None`: in the embedding
the whole effect is the returned state, which differs from the prior state
`r` only in the two assigned fields. -/
theorem fit_simple_population_formula (r : Regressor) (X y : List ℚ) (n : ℕ)
    (hX : X.length = n) (hy : y.length = n)
    (hvar : (∑ i in Finset.range n,
        (X.getD i 0 - (∑ j in Finset.range n, X.getD j 0) / n) ^ 2) / n ≠ 0) :
    fit_simple r (.one X) y =
      { r with
        coefficients := some (.scalar
          (((∑ i in Finset.range n,
              (X.getD i 0 - (∑ j in Finset.range n, X.getD j 0) / n) *
                (y.getD i 0 - (∑ j in Finset.range n, y.getD j 0) / n)) / n) /
           ((∑ i in Finset.range n,
              (X.getD i 0 - (∑ j in Finset.range n, X.getD j 0) / n) ^ 2) / n)))
        intercept := some
          ((∑ j in Finset.range n, y.getD j 0) / n -
            (((∑ i in Finset.range n,
                (X.getD i 0 - (∑ j in Finset.range n, X.getD j 0) / n) *
                  (y.getD i 0 - (∑ j in Finset.range n, y.getD j 0) / n)) / n) /
             ((∑ i in Finset.range n,
                (X.getD i 0 - (∑ j in Finset.range n, X.getD j 0) / n) ^ 2) / n)) *
            ((∑ j in Finset.range n, X.getD j 0) / n)) } := by
  subst hX
  simp only [fit_simple, NDArray.ndim, NDArray.flatten, gt_iff_lt,
    Nat.lt_irrefl, if_false]
  rw [npCov_eq_sum_getD X y (by omega), npVar_eq_sum_getD,
    npMean_eq_sum_getD, npMean_eq_sum_getD, hy]

/-- Witness for C1 at `X = [1,2,3,4]`, `y = [2,4,6,8]`. -/
theorem fit_simple_population_formula_witness :
    (([(1 : ℚ), 2, 3, 4] : List ℚ).length = 4 ∧
      (([(2 : ℚ), 4, 6, 8] : List ℚ)).length = 4 ∧
      (∑ i in Finset.range 4,
        (([(1 : ℚ), 2, 3, 4] : List ℚ).getD i 0 -
          (∑ j in Finset.range 4, ([(1 : ℚ), 2, 3, 4] : List ℚ).getD j 0) / 4) ^ 2) / 4 ≠ 0) ∧
    fit_simple Regressor.init (.one [1, 2, 3, 4]) [2, 4, 6, 8] =
      { Regressor.init with
        coefficients := some (.scalar
          (((∑ i in Finset.range 4,
              (([(1 : ℚ), 2, 3, 4] : List ℚ).getD i 0 -
                (∑ j in Finset.range 4, ([(1 : ℚ), 2, 3, 4] : List ℚ).getD j 0) / 4) *
                (([(2 : ℚ), 4, 6, 8] : List ℚ).getD i 0 -
                  (∑ j in Finset.range 4, ([(2 : ℚ), 4, 6, 8] : List ℚ).getD j 0) / 4)) / 4) /
           ((∑ i in Finset.range 4,
              (([(1 : ℚ), 2, 3, 4] : List ℚ).getD i 0 -
                (∑ j in Finset.range 4, ([(1 : ℚ), 2, 3, 4] : List ℚ).getD j 0) / 4) ^ 2) / 4)))
        intercept := some
          ((∑ j in Finset.range 4, ([(2 : ℚ), 4, 6, 8] : List ℚ).getD j 0) / 4 -
            (((∑ i in Finset.range 4,
                (([(1 : ℚ), 2, 3, 4] : List ℚ).getD i 0 -
                  (∑ j in Finset.range 4, ([(1 : ℚ), 2, 3, 4] : List ℚ).getD j 0) / 4) *
                (([(2 : ℚ), 4, 6, 8] : List ℚ).getD i 0 -
                  (∑ j in Finset.range 4, ([(2 : ℚ), 4, 6, 8] : List ℚ).getD j 0) / 4)) / 4) /
             ((∑ i in Finset.range 4,
                (([(1 : ℚ), 2, 3, 4] : List ℚ).getD i 0 -
                  (∑ j in Finset.range 4, ([(1 : ℚ), 2, 3, 4] : List ℚ).getD j 0) / 4) ^ 2) / 4)) *
            ((∑ j in Finset.range 4, ([(1 : ℚ), 2, 3, 4] : List ℚ).getD j 0) / 4)) } :=
  ⟨⟨rfl, rfl, by norm_num [Finset.sum_range_succ]⟩,
    fit_simple_population_formula Regressor.init [1, 2, 3, 4] [2, 4, 6, 8] 4
      rfl rfl (by norm_num [Finset.sum_range_succ])⟩

/-! ## Claim C10: 2-D single-feature input to `fit_simple` -/

/-- Claim C10: for a single-feature 2-D predictor of shape `n × 1` (or
`1 × n`) with as many elements as `y`, `fit_simple` produces exactly the
same state as `fit_simple` on the flattened 1-D version: the internal
`reshape(1, -1)` makes the 2-D single-feature case equivalent to the 1-D
case rather than an error. -/
theorem fit_simple_two_dim_eq_flatten (r : Regressor) (m : List (List ℚ))
    (y : List ℚ) (hshape : (∀ row ∈ m, row.length = 1) ∨ m.length = 1)
    (hlen : m.flatten.length = y.length) :
    fit_simple r (.two m) y = fit_simple r (.one m.flatten) y := by
  simp [fit_simple, NDArray.ndim, NDArray.reshapeRow, NDArray.flatten]

/-- Witness for C10 at `m = [[1],[2],[3]]` (a `3 × 1` column), `y = [1,2,4]`. -/
theorem fit_simple_two_dim_eq_flatten_witness :
    ((∀ row ∈ [[(1 : ℚ)], [2], [3]], row.length = 1) ∨
        ([[(1 : ℚ)], [2], [3]] : List (List ℚ)).length = 1) ∧
      ([[(1 : ℚ)], [2], [3]] : List (List ℚ)).flatten.length =
        ([(1 : ℚ), 2, 4] : List ℚ).length ∧
      fit_simple Regressor.init (.two [[1], [2], [3]]) [1, 2, 4] =
        fit_simple Regressor.init
          (.one ([[(1 : ℚ)], [2], [3]] : List (List ℚ)).flatten) [1, 2, 4] :=
  ⟨Or.inl (by decide), by decide,
    fit_simple_two_dim_eq_flatten Regressor.init [[1], [2], [3]] [1, 2, 4]
      (Or.inl (by decide)) (by decide)⟩

/-! ## Claim C4: the unfitted-model error -/

/-- Claim C4: `predict` raises the unfitted-model error exactly when
`coefficients` or `intercept` is unset, for every input `X`; in
particular it is deterministic and input-independent. -/
theorem predict_unfitted_iff (r : Regressor) (X : NDArray) :
    predict r X = .error .unfitted ↔
      r.coefficients = none ∨ r.intercept = none := by
  obtain ⟨c, b⟩ := r
  cases c with
  | none => simp [predict]
  | some c =>
    cases b with
    | none => simp [predict]
    | some b =>
      simp only [Option.some_ne_none, or_self, iff_false]
      cases X with
      | one l =>
        cases c with
        | scalar s => simp [predict]
        | vec v => cases hbc : broadcast1 (· * ·) v l <;> simp [predict, hbc]
      | two m =>
        cases c with
        | scalar s => simp [predict]
        | vec v =>
          by_cases hall : m.all (fun row => row.length = v.length) = true <;>
            simp [predict, hall]

/-! ## Claim C5: predictions of a fitted model -/

/-- Claim C5: on a fitted Regressor, `predict` returns a length-`n` array of
predictions: for 1-D input with a scalar (simple-fit) coefficient each
entry is `intercept + coefficient * x`; for 2-D input whose rows match the
fitted coefficient vector each entry is the intercept plus the dot product
of the row with the coefficients. -/
theorem predict_fitted_formula (b s : ℚ) (v l : List ℚ) (m : List (List ℚ))
    (hrect : ∀ row ∈ m, row.length = v.length) :
    predict ⟨some (.scalar s), some b⟩ (.one l) =
        .ok (.one (l.map fun x => b + s * x)) ∧
      predict ⟨some (.vec v), some b⟩ (.two m) =
        .ok (.one (m.map fun row => b + dotQ row v)) ∧
      (l.map fun x => b + s * x).length = l.length ∧
      (m.map fun row => b + dotQ row v).length = m.length := by
  refine ⟨rfl, ?_, List.length_map _ _, List.length_map _ _⟩
  have hall : m.all (fun row => row.length = v.length) = true :=
    List.all_eq_true.mpr fun row hrow => decide_eq_true (hrect row hrow)
  simp [predict, hall]

/-- Witness for C5 at `b = 1`, `s = 2`, `v = [3,4]`, `l = [5,6,7]`,
`m = [[1,2],[3,4]]`. -/
theorem predict_fitted_formula_witness :
    (∀ row ∈ [[(1 : ℚ), 2], [3, 4]], row.length = ([(3 : ℚ), 4] : List ℚ).length) ∧
      predict ⟨some (.scalar 2), some 1⟩ (.one [5, 6, 7]) =
          .ok (.one (([(5 : ℚ), 6, 7] : List ℚ).map fun x => 1 + 2 * x)) ∧
        predict ⟨some (.vec [3, 4]), some 1⟩ (.two [[1, 2], [3, 4]]) =
          .ok (.one (([[(1 : ℚ), 2], [3, 4]] : List (List ℚ)).map
            fun row => 1 + dotQ row [3, 4])) ∧
        (([(5 : ℚ), 6, 7] : List ℚ).map fun x => 1 + 2 * x).length =
          ([(5 : ℚ), 6, 7] : List ℚ).length ∧
        (([[(1 : ℚ), 2], [3, 4]] : List (List ℚ)).map
            fun row => 1 + dotQ row [3, 4]).length =
          ([[(1 : ℚ), 2], [3, 4]] : List (List ℚ)).length :=
  ⟨by decide,
    predict_fitted_formula 1 2 [3, 4] [5, 6, 7] [[1, 2], [3, 4]] (by decide)⟩

/-! ## Claim C3: the evaluation metrics -/

/-- Rewriting `rss` as an indexed sum over `ℚ`. -/
theorem rssQ_eq_sum_getD (yt yp : List ℚ) (h : yt.length = yp.length) :
    rssQ yt yp =
      ∑ k in Finset.range yt.length, (yt.getD k 0 - yp.getD k 0) ^ 2 := by
  rw [rssQ, List.map_zipWith, zipWith_sum_getD _ _ _ h]

/-- Rewriting `tss` as an indexed sum over `ℚ`. -/
theorem tssQ_eq_sum_getD (yt : List ℚ) :
    tssQ yt =
      ∑ k in Finset.range yt.length, (yt.getD k 0 - npMean yt) ^ 2 := by
  rw [tssQ, List.map_map]
  simpa [Function.comp] using
    map_sum_getD (fun a => (a - npMean yt) ^ 2) yt

/-- The absolute-error sum of `mae` as an indexed sum over `ℚ`. -/
theorem maeQ_eq_sum_getD (yt yp : List ℚ) (h : yt.length = yp.length) :
    maeQ yt yp =
      (1 / yt.length) *
        ∑ k in Finset.range yt.length, |yt.getD k 0 - yp.getD k 0| := by
  rw [maeQ, List.map_zipWith, zipWith_sum_getD _ _ _ h]

/-- A non-constant list has nonzero `tss`. -/
theorem tssQ_ne_zero_of_nonconstant (yt : List ℚ) (i j : ℕ)
    (hi : i < yt.length) (hj : j < yt.length)
    (hne : yt.getD i 0 ≠ yt.getD j 0) : tssQ yt ≠ 0 := by
  intro h0
  rw [tssQ_eq_sum_getD] at h0
  have hall :=
    (Finset.sum_eq_zero_iff_of_nonneg fun k _ => sq_nonneg _).mp h0
  have hvi := hall i (Finset.mem_range.mpr hi)
  have hvj := hall j (Finset.mem_range.mpr hj)
  apply hne
  have h1 : yt.getD i 0 = npMean yt := by nlinarith [sq_nonneg (yt.getD i 0 - npMean yt)]
  have h2 : yt.getD j 0 = npMean yt := by nlinarith [sq_nonneg (yt.getD j 0 - npMean yt)]
  rw [h1, h2]

/-- Claim C3: for equal-length inputs with `n ≥ 1` and non-constant
`y_true`, `evaluate_regression` returns a mapping with exactly the keys
`"R2"`, `"RMSE"`, `"MAE"`, whose values are `1 - RSS/TSS`,
`sqrt(RSS/n)` and `(1/n) Σ|y_true - y_pred|`, with
`RSS = Σ(y_true - y_pred)²` and `TSS = Σ(y_true - mean(y_true))²`,
all written as explicit indexed sums over `ℝ`. -/
theorem evaluate_regression_formulas (yt yp : List ℚ) (n : ℕ)
    (ht : yt.length = n) (hp : yp.length = n) (hn : 1 ≤ n) (i j : ℕ)
    (hi : i < n) (hj : j < n) (hne : yt.getD i 0 ≠ yt.getD j 0) :
    (evaluate_regression yt yp).map Prod.fst = ["R2", "RMSE", "MAE"] ∧
    evaluate_regression yt yp =
      [("R2", 1 -
          (∑ k in Finset.range n, ((yt.getD k 0 : ℝ) - (yp.getD k 0 : ℝ)) ^ 2) /
          (∑ k in Finset.range n,
            ((yt.getD k 0 : ℝ) -
              (∑ l in Finset.range n, (yt.getD l 0 : ℝ)) / n) ^ 2)),
       ("RMSE", Real.sqrt
          ((∑ k in Finset.range n, ((yt.getD k 0 : ℝ) - (yp.getD k 0 : ℝ)) ^ 2) / n)),
       ("MAE", (1 / (n : ℝ)) *
          ∑ k in Finset.range n, |(yt.getD k 0 : ℝ) - (yp.getD k 0 : ℝ)|)] := by
  subst ht
  have hlen : yt.length = yp.length := hp.symm ▸ rfl
  have htss : tssQ yt ≠ 0 := tssQ_ne_zero_of_nonconstant yt i j hi hj hne
  refine ⟨rfl, ?_⟩
  have hrss : ((rssQ yt yp : ℚ) : ℝ) =
      ∑ k in Finset.range yt.length, ((yt.getD k 0 : ℝ) - (yp.getD k 0 : ℝ)) ^ 2 := by
    rw [rssQ_eq_sum_getD yt yp hlen, Rat.cast_sum]
    push_cast
    rfl
  have htssc : ((tssQ yt : ℚ) : ℝ) =
      ∑ k in Finset.range yt.length,
        ((yt.getD k 0 : ℝ) -
          (∑ l in Finset.range yt.length, (yt.getD l 0 : ℝ)) / yt.length) ^ 2 := by
    rw [tssQ_eq_sum_getD yt, Rat.cast_sum, npMean_eq_sum_getD]
    push_cast [Rat.cast_sum]
    rfl
  have hmae : ((maeQ yt yp : ℚ) : ℝ) =
      (1 / (yt.length : ℝ)) *
        ∑ k in Finset.range yt.length, |(yt.getD k 0 : ℝ) - (yp.getD k 0 : ℝ)| := by
    rw [maeQ_eq_sum_getD yt yp hlen, Rat.cast_mul, Rat.cast_sum]
    push_cast [Rat.cast_abs]
    rfl
  simp only [evaluate_regression]
  push_cast [hrss, htssc, hmae]
  norm_num

/-- Witness for C3 at `y_true = [1, 3]`, `y_pred = [1, 2]`. -/
theorem evaluate_regression_formulas_witness :
    (([(1 : ℚ), 3] : List ℚ).length = 2 ∧ ([(1 : ℚ), 2] : List ℚ).length = 2 ∧
      (1 : ℕ) ≤ 2 ∧ (0 : ℕ) < 2 ∧ (1 : ℕ) < 2 ∧
      ([(1 : ℚ), 3] : List ℚ).getD 0 0 ≠ ([(1 : ℚ), 3] : List ℚ).getD 1 0) ∧
    (evaluate_regression [1, 3] [1, 2]).map Prod.fst = ["R2", "RMSE", "MAE"] ∧
    evaluate_regression [1, 3] [1, 2] =
      [("R2", 1 -
          (∑ k in Finset.range 2,
            ((([(1 : ℚ), 3] : List ℚ).getD k 0 : ℝ) -
              (([(1 : ℚ), 2] : List ℚ).getD k 0 : ℝ)) ^ 2) /
          (∑ k in Finset.range 2,
            ((([(1 : ℚ), 3] : List ℚ).getD k 0 : ℝ) -
              (∑ l in Finset.range 2, (([(1 : ℚ), 3] : List ℚ).getD l 0 : ℝ)) / 2) ^ 2)),
       ("RMSE", Real.sqrt
          ((∑ k in Finset.range 2,
            ((([(1 : ℚ), 3] : List ℚ).getD k 0 : ℝ) -
              (([(1 : ℚ), 2] : List ℚ).getD k 0 : ℝ)) ^ 2) / 2)),
       ("MAE", (1 / (2 : ℝ)) *
          ∑ k in Finset.range 2,
            |(([(1 : ℚ), 3] : List ℚ).getD k 0 : ℝ) -
              (([(1 : ℚ), 2] : List ℚ).getD k 0 : ℝ)|)] :=
  ⟨⟨rfl, rfl, by norm_num, by norm_num, by norm_num, by norm_num⟩,
    evaluate_regression_formulas [1, 3] [1, 2] 2 rfl rfl (by norm_num) 0 1
      (by norm_num) (by norm_num) (by norm_num)⟩

/-! ## Claim C9: translation invariance of the metrics -/

/-- Shifting both lists by the same constant leaves their elementwise
differences unchanged. -/
theorem zipWith_sub_map_add (c : ℚ) :
    ∀ a b : List ℚ,
      List.zipWith (· - ·) (a.map (fun x => x + c)) (b.map (fun x => x + c)) =
        List.zipWith (· - ·) a b
  | [], _ => by simp
  | _ :: _, [] => by simp
  | x :: a, y :: b => by
    simp only [List.map_cons, List.zipWith_cons_cons,
      zipWith_sub_map_add c a b]
    congr 1
    ring

/-- The sum of a shifted list. -/
theorem sum_map_add (l : List ℚ) (c : ℚ) :
    (l.map (fun a => a + c)).sum = l.sum + l.length * c := by
  induction l with
  | nil => simp
  | cons a l ih =>
    simp only [List.map_cons, List.sum_cons, List.length_cons, ih]
    push_cast
    ring

/-- The mean of a shifted nonempty list. -/
theorem npMean_map_add (l : List ℚ) (c : ℚ) (h : l ≠ []) :
    npMean (l.map (fun a => a + c)) = npMean l + c := by
  have hn : (l.length : ℚ) ≠ 0 := by
    have := List.length_pos.mpr h
    positivity
  rw [npMean, npMean, List.length_map, sum_map_add]
  field_simp
  ring

/-- The metric `tss` is invariant under shifting `y_true` by a constant. -/
theorem tssQ_map_add (yt : List ℚ) (c : ℚ) :
    tssQ (yt.map (fun a => a + c)) = tssQ yt := by
  rcases eq_or_ne yt [] with rfl | hne
  · simp [tssQ]
  · rw [tssQ, tssQ, npMean_map_add yt c hne, List.map_map, List.map_map,
      List.map_map]
    congr 1
    apply List.map_congr_left
    intro a _
    simp only [Function.comp_apply]
    ring

/-- The metric `rss` is invariant under shifting both inputs by a constant. -/
theorem rssQ_map_add (yt yp : List ℚ) (c : ℚ) :
    rssQ (yt.map (fun a => a + c)) (yp.map (fun a => a + c)) = rssQ yt yp := by
  rw [rssQ, rssQ, zipWith_sub_map_add]

/-- The metric `mae` is invariant under shifting both inputs by a constant. -/
theorem maeQ_map_add (yt yp : List ℚ) (c : ℚ) :
    maeQ (yt.map (fun a => a + c)) (yp.map (fun a => a + c)) = maeQ yt yp := by
  rw [maeQ, maeQ, zipWith_sub_map_add, List.length_map]

/-- Claim C9: adding the same constant to `y_true` and `y_pred`
simultaneously leaves `RSS`, `TSS`, `MAE` and the whole returned mapping
(hence also `R²` and `RMSE`) unchanged. -/
theorem evaluate_regression_translation_invariant (yt yp : List ℚ) (c : ℚ)
    (hlen : yt.length = yp.length) :
    rssQ (yt.map (fun a => a + c)) (yp.map (fun a => a + c)) = rssQ yt yp ∧
    tssQ (yt.map (fun a => a + c)) = tssQ yt ∧
    maeQ (yt.map (fun a => a + c)) (yp.map (fun a => a + c)) = maeQ yt yp ∧
    evaluate_regression (yt.map (fun a => a + c)) (yp.map (fun a => a + c)) =
      evaluate_regression yt yp := by
  refine ⟨rssQ_map_add yt yp c, tssQ_map_add yt c, maeQ_map_add yt yp c, ?_⟩
  rw [evaluate_regression, evaluate_regression, rssQ_map_add, tssQ_map_add,
    maeQ_map_add, List.length_map]

/-- Witness for C9 at `y_true = [1, 2]`, `y_pred = [0, 1]`, `c = 5`. -/
theorem evaluate_regression_translation_invariant_witness :
    ([(1 : ℚ), 2] : List ℚ).length = ([(0 : ℚ), 1] : List ℚ).length ∧
    (rssQ (([(1 : ℚ), 2] : List ℚ).map (fun a => a + 5))
        (([(0 : ℚ), 1] : List ℚ).map (fun a => a + 5)) = rssQ [1, 2] [0, 1] ∧
      tssQ (([(1 : ℚ), 2] : List ℚ).map (fun a => a + 5)) = tssQ [1, 2] ∧
      maeQ (([(1 : ℚ), 2] : List ℚ).map (fun a => a + 5))
        (([(0 : ℚ), 1] : List ℚ).map (fun a => a + 5)) = maeQ [1, 2] [0, 1] ∧
      evaluate_regression (([(1 : ℚ), 2] : List ℚ).map (fun a => a + 5))
          (([(0 : ℚ), 1] : List ℚ).map (fun a => a + 5)) =
        evaluate_regression [1, 2] [0, 1]) :=
  ⟨rfl, evaluate_regression_translation_invariant [1, 2] [0, 1] 5 rfl⟩

/-! ## Claim C8: silent non-finite results on degenerate input -/

/-- The mean of a nonempty constant list. -/
theorem npMean_const (X : List ℚ) (c : ℚ) (hc : ∀ a ∈ X, a = c)
    (hne : X ≠ []) : npMean X = c := by
  have hn : (X.length : ℚ) ≠ 0 := by
    have := List.length_pos.mpr hne
    positivity
  rw [npMean, List.sum_eq_card_nsmul X c hc, nsmul_eq_mul]
  field_simp

/-- A nonempty constant list has zero population variance. -/
theorem npVar_const (X : List ℚ) (c : ℚ) (hc : ∀ a ∈ X, a = c)
    (hne : X ≠ []) : npVar X = 0 := by
  rw [npVar, npMean_const X c hc hne]
  have hz : (X.map fun a => (a - c) ^ 2).sum = 0 := by
    apply List.sum_eq_zero
    intro x hx
    obtain ⟨a, ha, rfl⟩ := List.mem_map.mp hx
    rw [hc a ha]
    ring
  rw [hz, zero_div]

/-- Summed deviation products vanish when the left deviations are all
zero. -/
theorem zipWith_dev_sum_zero (c d : ℚ) :
    ∀ X y : List ℚ, (∀ a ∈ X, a = c) →
      (List.zipWith (fun a b => (a - c) * (b - d)) X y).sum = 0
  | [], _, _ => by simp
  | _ :: _, [], _ => by simp
  | x :: X, b :: y, h => by
    simp only [List.zipWith_cons_cons, List.sum_cons]
    rw [zipWith_dev_sum_zero c d X y fun a ha => h a (List.mem_cons_of_mem _ ha),
      h x (List.mem_cons_self _ _)]
    ring

/-- The covariance of a nonempty constant list with anything is zero. -/
theorem npCov_const_left (X y : List ℚ) (c : ℚ) (hc : ∀ a ∈ X, a = c)
    (hne : X ≠ []) : npCov X y = 0 := by
  rw [npCov, npMean_const X c hc hne, zipWith_dev_sum_zero c (npMean y) X y hc,
    zero_div]

/-- A nonempty constant `y_true` has zero `tss`. -/
theorem tssQ_const (yt : List ℚ) (d : ℚ) (hd : ∀ a ∈ yt, a = d)
    (hne : yt ≠ []) : tssQ yt = 0 := by
  rw [tssQ, npMean_const yt d hd hne]
  apply List.sum_eq_zero
  intro x hx
  obtain ⟨u, hu, rfl⟩ := List.mem_map.mp hx
  obtain ⟨a, ha, rfl⟩ := List.mem_map.mp hu
  rw [hd a ha]
  ring

/-- The metric `rss` is a sum of squares, hence nonnegative. -/
theorem rssQ_nonneg (yt yp : List ℚ) : 0 ≤ rssQ yt yp := by
  apply List.sum_nonneg
  intro x hx
  obtain ⟨d, _, rfl⟩ := List.mem_map.mp hx
  positivity

/-- Claim C8: on a zero-variance 1-D predictor, `fit_simple` raises no
error: both fields are assigned (`some`), and in IEEE arithmetic the
division by the zero variance makes both stored values non-finite.
Likewise `evaluate_regression` on constant `y_true` (zero `tss`) raises
no error: the returned mapping still carries the three keys, and the
`r_squared` value computed by lines 101–104 is non-finite. -/
theorem degenerate_inputs_silent (X y yt yp : List ℚ) (c d : ℚ)
    (hXc : ∀ a ∈ X, a = c) (hXne : X ≠ [])
    (hyt : ∀ a ∈ yt, a = d) (hytne : yt ≠ []) :
    npVar X = 0 ∧
    (∃ f g : Fl, fit_simpleF X y = (some f, some g) ∧
      f.isFinite = false ∧ g.isFinite = false) ∧
    tssQ yt = 0 ∧
    (r2F yt yp).isFinite = false ∧
    (evaluate_regression yt yp).map Prod.fst = ["R2", "RMSE", "MAE"] := by
  have hvar := npVar_const X c hXc hXne
  have hcov := npCov_const_left X y c hXc hXne
  have htss := tssQ_const yt d hyt hytne
  refine ⟨hvar, ⟨.nan, .nan, ?_, rfl, rfl⟩, htss, ?_, rfl⟩
  · rw [fit_simpleF, hcov, hvar]
    simp [Fl.div, Fl.mul, Fl.sub]
  · rw [r2F, htss]
    rcases eq_or_lt_of_le (rssQ_nonneg yt yp) with h | h
    · rw [← h]
      simp [Fl.div, Fl.sub, Fl.isFinite]
    · simp [Fl.div, Fl.sub, Fl.isFinite, h, h.ne']

/-- Witness for C8 at `X = [2]`, `y = [7]`, `y_true = [5]`,
`y_pred = [1]`. -/
theorem degenerate_inputs_silent_witness :
    ((∀ a ∈ [(2 : ℚ)], a = 2) ∧ ([(2 : ℚ)] : List ℚ) ≠ [] ∧
      (∀ a ∈ [(5 : ℚ)], a = 5) ∧ ([(5 : ℚ)] : List ℚ) ≠ []) ∧
    npVar [(2 : ℚ)] = 0 ∧
    (∃ f g : Fl, fit_simpleF [(2 : ℚ)] [(7 : ℚ)] = (some f, some g) ∧
      f.isFinite = false ∧ g.isFinite = false) ∧
    tssQ [(5 : ℚ)] = 0 ∧
    (r2F [(5 : ℚ)] [(1 : ℚ)]).isFinite = false ∧
    (evaluate_regression [(5 : ℚ)] [(1 : ℚ)]).map Prod.fst =
      ["R2", "RMSE", "MAE"] :=
  ⟨⟨by simp, by simp, by simp, by simp⟩,
    degenerate_inputs_silent [2] [7] [5] [1] 2 5 (by simp) (by simp)
      (by simp) (by simp)⟩

/-! ## Claim C2: `fit_multiple` solves the normal equations -/

/-- The explicit adjugate-formula inverse agrees with Mathlib's matrix
inverse (both give `0` on a singular matrix). -/
theorem invQ_eq_inv {m : ℕ} (A : Matrix (Fin m) (Fin m) ℚ) : invQ A = A⁻¹ := by
  rw [Matrix.inv_def, invQ, Ring.inverse_eq_inv']

/-- Claim C2: when the Gram matrix `X'ᵀ X'` of the ones-augmented design
matrix `X'` is nonsingular, `fit_multiple` stores
`w = (X'ᵀX')⁻¹ X'ᵀ y`: the first entry of `w` becomes the intercept and
the remaining `p` entries the coefficients in input column order.  The
first two conjuncts identify `X'` as `X` with a leading ones column; the
last two show the stored `w` solves the normal equations
`(X'ᵀX') w = X'ᵀ y` and is their unique solution. -/
theorem fit_multiple_normal_equations {n p : ℕ} (r : Regressor)
    (X : Matrix (Fin n) (Fin p) ℚ) (y : Fin n → ℚ)
    (hdet : ((addOnes X).transpose * addOnes X).det ≠ 0) :
    (∀ i, addOnes X i 0 = 1) ∧
    (∀ i (j : Fin p), addOnes X i j.succ = X i j) ∧
    fit_multiple r X y =
      { r with
        intercept := some ((((addOnes X).transpose * addOnes X)⁻¹ *
          (addOnes X).transpose).mulVec y 0)
        coefficients := some (.vec (List.ofFn fun j : Fin p =>
          (((addOnes X).transpose * addOnes X)⁻¹ *
            (addOnes X).transpose).mulVec y j.succ)) } ∧
    ((addOnes X).transpose * addOnes X).mulVec
        ((((addOnes X).transpose * addOnes X)⁻¹ *
          (addOnes X).transpose).mulVec y) =
      (addOnes X).transpose.mulVec y ∧
    ∀ w', ((addOnes X).transpose * addOnes X).mulVec w' =
        (addOnes X).transpose.mulVec y →
      w' = (((addOnes X).transpose * addOnes X)⁻¹ *
        (addOnes X).transpose).mulVec y := by
  have hunit : IsUnit ((addOnes X).transpose * addOnes X).det :=
    isUnit_iff_ne_zero.mpr hdet
  refine ⟨fun i => rfl, fun i j => by simp [addOnes], ?_, ?_, ?_⟩
  · rw [fit_multiple, if_neg hdet]
    simp only [invQ_eq_inv]
  · rw [Matrix.mulVec_mulVec, ← Matrix.mul_assoc,
      Matrix.mul_nonsing_inv _ hunit, Matrix.one_mul]
  · intro w' hw'
    have h1 : (((addOnes X).transpose * addOnes X)⁻¹ *
        ((addOnes X).transpose * addOnes X)).mulVec w' =
        (((addOnes X).transpose * addOnes X)⁻¹ *
          (addOnes X).transpose).mulVec y := by
      rw [← Matrix.mulVec_mulVec, hw', Matrix.mulVec_mulVec]
    rwa [Matrix.nonsing_inv_mul _ hunit, Matrix.one_mulVec] at h1

/-- Witness for C2 at `X = [[0], [1]]` (two observations of one feature),
`y = [1, 3]`. -/
theorem fit_multiple_normal_equations_witness :
    ((addOnes !![(0 : ℚ); 1]).transpose * addOnes !![(0 : ℚ); 1]).det ≠ 0 ∧
    ((∀ i, addOnes !![(0 : ℚ); 1] i 0 = 1) ∧
      (∀ i (j : Fin 1), addOnes !![(0 : ℚ); 1] i j.succ = !![(0 : ℚ); 1] i j) ∧
      fit_multiple Regressor.init !![(0 : ℚ); 1] ![1, 3] =
        { Regressor.init with
          intercept := some ((((addOnes !![(0 : ℚ); 1]).transpose *
              addOnes !![(0 : ℚ); 1])⁻¹ *
            (addOnes !![(0 : ℚ); 1]).transpose).mulVec ![1, 3] 0)
          coefficients := some (.vec (List.ofFn fun j : Fin 1 =>
            (((addOnes !![(0 : ℚ); 1]).transpose * addOnes !![(0 : ℚ); 1])⁻¹ *
              (addOnes !![(0 : ℚ); 1]).transpose).mulVec ![1, 3] j.succ)) } ∧
      ((addOnes !![(0 : ℚ); 1]).transpose * addOnes !![(0 : ℚ); 1]).mulVec
          ((((addOnes !![(0 : ℚ); 1]).transpose * addOnes !![(0 : ℚ); 1])⁻¹ *
            (addOnes !![(0 : ℚ); 1]).transpose).mulVec ![1, 3]) =
        (addOnes !![(0 : ℚ); 1]).transpose.mulVec ![1, 3] ∧
      ∀ w', ((addOnes !![(0 : ℚ); 1]).transpose * addOnes !![(0 : ℚ); 1]).mulVec w' =
          (addOnes !![(0 : ℚ); 1]).transpose.mulVec ![1, 3] →
        w' = (((addOnes !![(0 : ℚ); 1]).transpose * addOnes !![(0 : ℚ); 1])⁻¹ *
          (addOnes !![(0 : ℚ); 1]).transpose).mulVec ![1, 3]) := by
  have hdet : ((addOnes !![(0 : ℚ); 1]).transpose * addOnes !![(0 : ℚ); 1]).det ≠ 0 := by
    simp [Matrix.det_fin_two, Matrix.mul_apply, Fin.sum_univ_two, addOnes,
      Matrix.vecHead, Matrix.cons_val_zero, Matrix.cons_val_one]
  exact ⟨hdet, fit_multiple_normal_equations Regressor.init !![(0 : ℚ); 1] ![1, 3] hdet⟩

/-! ## Claim C7: no partial-failure state -/

/-- Claim C7: when `fit_multiple` hits a singular Gram matrix,
`np.linalg.inv` raises before either field is assigned, so the prior
state is returned untouched; moreover every fit call either leaves the
state unchanged or assigns both `coefficients` and `intercept` together
(`fit_simple` always assigns both — its computations raise nothing on this
path). -/
theorem fit_failure_preserves_state {n p : ℕ} (r : Regressor)
    (X : Matrix (Fin n) (Fin p) ℚ) (y : Fin n → ℚ)
    (hsing : ((addOnes X).transpose * addOnes X).det = 0) :
    fit_multiple r X y = r ∧
    (∀ {n' p' : ℕ} (r'' : Regressor) (X' : Matrix (Fin n') (Fin p') ℚ)
        (y' : Fin n' → ℚ),
      fit_multiple r'' X' y' = r'' ∨
        ∃ c b, (fit_multiple r'' X' y').coefficients = some c ∧
          (fit_multiple r'' X' y').intercept = some b) ∧
    (∀ (r' : Regressor) (X1 : NDArray) (y1 : List ℚ),
      ∃ c b, (fit_simple r' X1 y1).coefficients = some c ∧
        (fit_simple r' X1 y1).intercept = some b) := by
  refine ⟨by rw [fit_multiple, if_pos hsing], ?_, ?_⟩
  · intro n' p' r'' X' y'
    by_cases h : ((addOnes X').transpose * addOnes X').det = 0
    · exact Or.inl (by rw [fit_multiple, if_pos h])
    · right
      rw [fit_multiple, if_neg h]
      exact ⟨_, _, rfl, rfl⟩
  · intro r' X1 y1
    exact ⟨_, _, rfl, rfl⟩

/-- Witness for C7 at the rank-deficient `X = [[1], [1]]` (a constant
feature column, collinear with the ones column) and a previously fitted
state. -/
theorem fit_failure_preserves_state_witness :
    ((addOnes !![(1 : ℚ); 1]).transpose * addOnes !![(1 : ℚ); 1]).det = 0 ∧
    (fit_multiple ⟨some (.scalar 9), some 7⟩ !![(1 : ℚ); 1] ![1, 3] =
        ⟨some (.scalar 9), some 7⟩ ∧
      (∀ {n' p' : ℕ} (r'' : Regressor) (X' : Matrix (Fin n') (Fin p') ℚ)
          (y' : Fin n' → ℚ),
        fit_multiple r'' X' y' = r'' ∨
          ∃ c b, (fit_multiple r'' X' y').coefficients = some c ∧
            (fit_multiple r'' X' y').intercept = some b) ∧
      (∀ (r' : Regressor) (X1 : NDArray) (y1 : List ℚ),
        ∃ c b, (fit_simple r' X1 y1).coefficients = some c ∧
          (fit_simple r' X1 y1).intercept = some b)) := by
  have hsing : ((addOnes !![(1 : ℚ); 1]).transpose * addOnes !![(1 : ℚ); 1]).det = 0 := by
    simp [Matrix.det_fin_two, Matrix.mul_apply, Fin.sum_univ_two, addOnes,
      Matrix.vecHead, Matrix.cons_val_zero, Matrix.cons_val_one]
  exact ⟨hsing,
    fit_failure_preserves_state ⟨some (.scalar 9), some 7⟩ !![(1 : ℚ); 1]
      ![1, 3] hsing⟩

/-! ## Claim C6: single-feature agreement of the two fit methods -/

/-- Zipping two `ofFn` lists combines the generating functions. -/
theorem zipWith_ofFn {n : ℕ} (f : ℚ → ℚ → ℚ) (x y : Fin n → ℚ) :
    List.zipWith f (List.ofFn x) (List.ofFn y) =
      List.ofFn fun i => f (x i) (y i) := by
  induction n with
  | zero => simp
  | succ m ih => simp [List.ofFn_succ, ih]

/-- Evaluating `np.mean` on an `ofFn` list. -/
theorem npMean_ofFn {n : ℕ} (x : Fin n → ℚ) :
    npMean (List.ofFn x) = (∑ i, x i) / n := by
  rw [npMean, List.sum_ofFn, List.length_ofFn]

/-- Evaluating `np.var` on an `ofFn` list. -/
theorem npVar_ofFn {n : ℕ} (x : Fin n → ℚ) :
    npVar (List.ofFn x) = (∑ i, (x i - (∑ j, x j) / n) ^ 2) / n := by
  rw [npVar, npMean_ofFn, List.map_ofFn, List.sum_ofFn, List.length_ofFn]
  simp [Function.comp]

/-- The covariance entry for two `ofFn` lists. -/
theorem npCov_ofFn {n : ℕ} (x y : Fin n → ℚ) :
    npCov (List.ofFn x) (List.ofFn y) =
      (∑ i, (x i - (∑ j, x j) / n) * (y i - (∑ j, y j) / n)) / n := by
  rw [npCov, npMean_ofFn, npMean_ofFn, zipWith_ofFn, List.sum_ofFn,
    List.length_ofFn]

/-- Expansion of the summed deviation products. -/
theorem sum_dev_prod {n : ℕ} (x y : Fin n → ℚ) (hn : (n : ℚ) ≠ 0) :
    ∑ i, (x i - (∑ j, x j) / n) * (y i - (∑ j, y j) / n) =
      (∑ i, x i * y i) - (∑ i, x i) * (∑ i, y i) / n := by
  have h1 : ∀ i : Fin n,
      (x i - (∑ j, x j) / n) * (y i - (∑ j, y j) / n) =
        x i * y i - ((∑ j, x j) / n) * y i - ((∑ j, y j) / n) * x i +
          ((∑ j, x j) / n) * ((∑ j, y j) / n) := fun i => by ring
  rw [Finset.sum_congr rfl fun i _ => h1 i, Finset.sum_add_distrib,
    Finset.sum_sub_distrib, Finset.sum_sub_distrib, ← Finset.mul_sum,
    ← Finset.mul_sum, Finset.sum_const, Finset.card_univ, Fintype.card_fin,
    nsmul_eq_mul]
  field_simp
  ring

/-- Expansion of the summed squared deviations. -/
theorem sum_dev_sq {n : ℕ} (x : Fin n → ℚ) (hn : (n : ℚ) ≠ 0) :
    ∑ i, (x i - (∑ j, x j) / n) ^ 2 =
      (∑ i, x i * x i) - (∑ i, x i) * (∑ i, x i) / n := by
  have h2 : ∀ i : Fin n, (x i - (∑ j, x j) / n) ^ 2 =
      (x i - (∑ j, x j) / n) * (x i - (∑ j, x j) / n) := fun i => sq _
  rw [Finset.sum_congr rfl fun i _ => h2 i, sum_dev_prod x x hn]

/-- The Gram matrix of the ones-augmented single-feature design matrix. -/
theorem gram_single_feature {n : ℕ} (x : Fin n → ℚ) :
    (addOnes (Matrix.of fun i (_ : Fin 1) => x i)).transpose *
        addOnes (Matrix.of fun i (_ : Fin 1) => x i) =
      !![(n : ℚ), ∑ i, x i; ∑ i, x i, ∑ i, x i * x i] := by
  ext i j
  fin_cases i <;> fin_cases j <;>
    simp [Matrix.mul_apply, addOnes, Matrix.vecHead, Matrix.cons_val_zero,
      Matrix.cons_val_one]

/-- The moment vector `X'ᵀ y` of the single-feature design matrix. -/
theorem moment_single_feature {n : ℕ} (x y : Fin n → ℚ) :
    (addOnes (Matrix.of fun i (_ : Fin 1) => x i)).transpose.mulVec y =
      ![∑ i, y i, ∑ i, x i * y i] := by
  ext i
  fin_cases i <;>
    simp [Matrix.mulVec, Matrix.dotProduct, addOnes, Matrix.vecHead,
      Matrix.cons_val_zero, Matrix.cons_val_one]

/-- Claim C6: on a single-feature dataset with nonzero predictor variance,
`fit_multiple` (with `X` as an `n × 1` matrix) and `fit_simple` (with the
same data as a 1-D array) agree: `fit_multiple` stores the coefficient as
the one-element array `[s]` and `fit_simple` as the scalar `s`, with the
same `s` and the same intercept (exactly, in exact arithmetic). -/
theorem fit_multiple_single_feature_eq_fit_simple {n : ℕ}
    (r r' : Regressor) (x y : Fin n → ℚ)
    (hvar : npVar (List.ofFn x) ≠ 0) :
    ∃ s b : ℚ,
      fit_multiple r (Matrix.of fun i (_ : Fin 1) => x i) y =
        { r with coefficients := some (.vec [s]), intercept := some b } ∧
      fit_simple r' (.one (List.ofFn x)) (List.ofFn y) =
        { r' with coefficients := some (.scalar s), intercept := some b } := by
  have hn : (n : ℚ) ≠ 0 := by
    intro h0
    apply hvar
    have hn0 : n = 0 := by exact_mod_cast h0
    subst hn0
    simp [npVar, npMean]
  have hsq : ∑ i, (x i - (∑ j, x j) / n) ^ 2 =
      (∑ i, x i * x i) - (∑ i, x i) * (∑ i, x i) / n := sum_dev_sq x hn
  have hcv : ∑ i, (x i - (∑ j, x j) / n) * (y i - (∑ j, y j) / n) =
      (∑ i, x i * y i) - (∑ i, x i) * (∑ i, y i) / n := sum_dev_prod x y hn
  have hvar' : npVar (List.ofFn x) =
      ((∑ i, x i * x i) - (∑ i, x i) * (∑ i, x i) / n) / n := by
    rw [npVar_ofFn, hsq]
  have hnum : (∑ i, x i * x i) - (∑ i, x i) * (∑ i, x i) / n ≠ 0 := by
    intro h0
    apply hvar
    rw [hvar', h0, zero_div]
  have hdetv : (n : ℚ) * (∑ i, x i * x i) - (∑ i, x i) * (∑ i, x i) ≠ 0 := by
    intro h0
    apply hnum
    have hrw : (∑ i, x i * x i) - (∑ i, x i) * (∑ i, x i) / n =
        ((n : ℚ) * (∑ i, x i * x i) - (∑ i, x i) * (∑ i, x i)) / n := by
      field_simp
      ring
    rw [hrw, h0, zero_div]
  have hdet : ((addOnes (Matrix.of fun i (_ : Fin 1) => x i)).transpose *
      addOnes (Matrix.of fun i (_ : Fin 1) => x i)).det =
      (n : ℚ) * (∑ i, x i * x i) - (∑ i, x i) * (∑ i, x i) := by
    rw [gram_single_feature, Matrix.det_fin_two_of]
  have hdet0 : ((addOnes (Matrix.of fun i (_ : Fin 1) => x i)).transpose *
      addOnes (Matrix.of fun i (_ : Fin 1) => x i)).det ≠ 0 := by
    rw [hdet]
    exact hdetv
  have hdetv2 : (n : ℚ) * (∑ i, x i * x i) - (∑ i, x i) ^ 2 ≠ 0 := by
    rw [sq]
    exact hdetv
  refine ⟨(((∑ i, x i * y i) - (∑ i, x i) * (∑ i, y i) / n) / n) /
            (((∑ i, x i * x i) - (∑ i, x i) * (∑ i, x i) / n) / n),
          (∑ i, y i) / n -
            ((((∑ i, x i * y i) - (∑ i, x i) * (∑ i, y i) / n) / n) /
              (((∑ i, x i * x i) - (∑ i, x i) * (∑ i, x i) / n) / n)) *
              ((∑ i, x i) / n), ?_, ?_⟩
  · simp only [fit_multiple]
    rw [if_neg hdet0, ← Matrix.mulVec_mulVec, moment_single_feature, invQ,
      gram_single_feature, Matrix.det_fin_two_of, Matrix.adjugate_fin_two_of,
      Matrix.smul_mulVec_assoc]
    have hmv : (!![(∑ i, x i * x i), -(∑ i, x i);
          -(∑ i, x i), (n : ℚ)]).mulVec ![∑ i, y i, ∑ i, x i * y i] =
        ![(∑ i, x i * x i) * (∑ i, y i) - (∑ i, x i) * (∑ i, x i * y i),
          (n : ℚ) * (∑ i, x i * y i) - (∑ i, x i) * (∑ i, y i)] := by
      ext k
      fin_cases k <;>
        simp [Matrix.mulVec, Matrix.dotProduct, Fin.sum_univ_two,
          Matrix.cons_val_zero, Matrix.cons_val_one, Matrix.vecHead,
          Matrix.vecTail] <;>
      ring
    rw [hmv]
    simp only [List.ofFn_succ, List.ofFn_zero, Fin.succ_zero_eq_one,
      Regressor.mk.injEq, Option.some.injEq, Coeffs.vec.injEq,
      Pi.smul_apply, smul_eq_mul, Matrix.cons_val_zero, Matrix.cons_val_one,
      Matrix.vecHead, Matrix.vecTail, List.cons.injEq, and_true]
    have hs : (((∑ i, x i * y i) - (∑ i, x i) * (∑ i, y i) / n) / n) /
        (((∑ i, x i * x i) - (∑ i, x i) * (∑ i, x i) / n) / n) =
        ((n : ℚ) * (∑ i, x i * y i) - (∑ i, x i) * (∑ i, y i)) /
          ((n : ℚ) * (∑ i, x i * x i) - (∑ i, x i) * (∑ i, x i)) := by
      rw [div_eq_div_iff (div_ne_zero hnum hn) hdetv]
      field_simp
      ring
    constructor
    · rw [inv_mul_eq_div, hs]
    · rw [inv_mul_eq_div, hs]
      field_simp
      ring
  · simp only [fit_simple, NDArray.ndim, NDArray.flatten, gt_iff_lt,
      Nat.lt_irrefl, if_false]
    rw [npCov_ofFn, npVar_ofFn, npMean_ofFn, npMean_ofFn, hsq, hcv]

/-- Witness for C6 at `x = (0, 1)`, `y = (1, 3)` (two observations of one
feature). -/
theorem fit_multiple_single_feature_eq_fit_simple_witness :
    npVar (List.ofFn ![(0 : ℚ), 1]) ≠ 0 ∧
    ∃ s b : ℚ,
      fit_multiple Regressor.init
          (Matrix.of fun i (_ : Fin 1) => (![(0 : ℚ), 1]) i) ![1, 3] =
        { Regressor.init with
          coefficients := some (.vec [s]), intercept := some b } ∧
      fit_simple Regressor.init (.one (List.ofFn ![(0 : ℚ), 1]))
          (List.ofFn ![(1 : ℚ), 3]) =
        { Regressor.init with
          coefficients := some (.scalar s), intercept := some b } := by
  have hvar : npVar (List.ofFn ![(0 : ℚ), 1]) ≠ 0 := by
    simp [List.ofFn_succ, npVar, npMean, Matrix.cons_val_zero,
      Matrix.cons_val_one, Matrix.vecHead]
    norm_num
  exact ⟨hvar, fit_multiple_single_feature_eq_fit_simple Regressor.init
    Regressor.init ![0, 1] ![1, 3] hvar⟩

end LinReg
